import Mathlib

/-!
Verification of the Emotion-recognition repository (model.ipynb): a shallow
embedding of its two pipelines.

The feature-extraction pipeline walks directories of `.wav` files, parses
each filename into a metadata record (emotion code table, actor id, gender
by parity), extracts a fixed-shape MFCC matrix per file (zero-padded or
truncated to 174 frames), and stacks the successful matrices and their
labels.  The training pipeline loads the stacked arrays, z-score-normalizes
per position over the sample axis, appends a channel axis, label-encodes
(sorted distinct labels), one-hot expands, and builds a CNN whose
`num_classes` defaults to 8.

Modelling conventions:
  - Python strings that flow through the pipelines (filenames, emotion
    labels) are `List Char`, compared and sorted by code point exactly as
    Python compares strings; only printed diagnostics are Lean `String`s.
  - numpy float64 values are modelled by `ℚ`; the square root inside
    `np.std` is an uninterpreted parameter `sqrt : ℚ → ℚ` since exact
    square roots leave `ℚ`.  Division by zero in `ℚ` is Lean's total
    division (junk value), standing for numpy's non-finite result.
  - The fallible audio decode (`librosa.load` + `librosa.feature.mfcc`) is
    an explicit `Except String` argument; `print` output is returned as a
    list of lines; a raised, uncaught Python exception is `Except.error`.
-/

namespace EmotionRec

/-- Python `str.split(sep)` for a one-character separator: the pieces of
`cs` between occurrences of `sep`, empty pieces kept (so the result is
always nonempty). -/
def splitOnChar (sep : Char) : List Char → List (List Char)
  | [] => [[]]
  | c :: rest =>
    match splitOnChar sep rest with
    | [] => if c = sep then [[], []] else [[c]]
    | p :: ps => if c = sep then [] :: p :: ps else (c :: p) :: ps

/-- Python `file.endswith(".wav")`. -/
def endsWithWav (cs : List Char) : Bool :=
  cs.reverse.take 4 == ['v', 'a', 'w', '.']

/-- Digits of a Python integer literal after the first digit: a digit, or an
underscore that must be followed by a digit (Python allows single
underscores between digits only). -/
def pyDigitsAux (acc : Nat) : List Char → Option Nat
  | [] => some acc
  | '_' :: c :: cs =>
    if c.isDigit then pyDigitsAux (10 * acc + (c.toNat - 48)) cs else none
  | c :: cs =>
    if c.isDigit then pyDigitsAux (10 * acc + (c.toNat - 48)) cs else none

/-- A nonempty run of decimal digits with optional single underscores
between them, as Python `int` accepts after the sign. -/
def pyDigits : List Char → Option Nat
  | [] => none
  | c :: cs => if c.isDigit then pyDigitsAux (c.toNat - 48) cs else none

/-- Leading and trailing whitespace stripped, as Python `int` does before
parsing (ASCII whitespace; Python also strips some rarer code points). -/
def pyTrim (cs : List Char) : List Char :=
  ((cs.dropWhile Char.isWhitespace).reverse.dropWhile Char.isWhitespace).reverse

/-- Python `int(s)` in base 10: optional sign, then digits; `none` models
the `ValueError` it raises on anything else. -/
def pythonIntChars (cs : List Char) : Option Int :=
  match pyTrim cs with
  | '+' :: rest => (pyDigits rest).map (fun n => (n : Int))
  | '-' :: rest => (pyDigits rest).map (fun n => -(n : Int))
  | rest => (pyDigits rest).map (fun n => (n : Int))

/-- The `emotion_map` dict of the notebook, both sides as character lists. -/
def emotion_map : List (List Char × List Char) :=
  [(['0', '1'], "neutral".toList),
   (['0', '2'], "calm".toList),
   (['0', '3'], "happy".toList),
   (['0', '4'], "sad".toList),
   (['0', '5'], "angry".toList),
   (['0', '6'], "fearful".toList),
   (['0', '7'], "disgust".toList),
   (['0', '8'], "surprised".toList)]

/-- Python `d.get(k, dflt)` on an association list. -/
def dictGet (m : List (List Char × List Char)) (k : List Char) (dflt : List Char) : List Char :=
  match m.find? (fun p => p.1 == k) with
  | some p => p.2
  | none => dflt

/-- One row of the notebook's `metadata` table. -/
structure MetaRow where
  filename : List Char
  filepath : List Char
  emotion : List Char
  gender : List Char
  actor_id : Int
deriving DecidableEq, Repr

/-- The body of the metadata loop for one directory entry: `ok none` when
the file is skipped (not `.wav`, or not exactly 7 hyphen-separated parts),
`ok (some row)` when a record is appended, `error` when the `int()` call on
the 7th part raises (nothing guards it). -/
def parseWavFile (subdir file : List Char) : Except String (Option MetaRow) :=
  if endsWithWav file then
    let parts := splitOnChar '-' file
    if parts.length ≠ 7 then
      Except.ok none
    else
      match pythonIntChars ((splitOnChar '.' (parts.getD 6 [])).getD 0 []) with
      | none =>
        Except.error ("invalid literal for int() with base 10: " ++
          String.mk ((splitOnChar '.' (parts.getD 6 [])).getD 0 []))
      | some actor_id =>
        Except.ok (some
          { filename := file
            filepath := subdir ++ '/' :: file
            emotion := dictGet emotion_map (parts.getD 2 []) "unknown".toList
            gender := if actor_id % 2 = 0 then "female".toList else "male".toList
            actor_id := actor_id })
  else
    Except.ok none

/-- The whole metadata pass (Step 1) over the files the directory walk
yields, each with its containing directory, in traversal order.  An
exception from any entry aborts the whole scan. -/
def scanFiles : List (List Char × List Char) → Except String (List MetaRow)
  | [] => Except.ok []
  | (subdir, file) :: rest =>
    match parseWavFile subdir file with
    | Except.error e => Except.error e
    | Except.ok none => scanFiles rest
    | Except.ok (some m) =>
      match scanFiles rest with
      | Except.error e => Except.error e
      | Except.ok ms => Except.ok (m :: ms)

/-- The notebook's constant `n_mfcc = 40` (rows of each MFCC matrix). -/
def n_mfcc : Nat := 40

/-- The notebook's constant `max_pad_len = 174` (target frame count). -/
def max_pad_len : Nat := 174

/-- numpy's `m.shape[1]` for a 2-D array given as its list of rows (all rows
of a numpy 2-D array have the same length, so the first row's length is the
frame count). -/
def shape1 (m : List (List ℚ)) : Nat := (m.headD []).length

/-- The padding/truncating step of `extract_mfcc`: right-pad every row with
zeros up to `max_pad_len` when the frame count is below it, else keep only
the first `max_pad_len` entries of every row. -/
def pad_or_truncate (mfcc : List (List ℚ)) : List (List ℚ) :=
  if shape1 mfcc < max_pad_len then
    let pad_width := max_pad_len - shape1 mfcc
    mfcc.map (fun row => row ++ List.replicate pad_width 0)
  else
    mfcc.map (fun row => row.take max_pad_len)

/-- `extract_mfcc(filepath)`: `decoded` is the outcome of the fallible
`librosa.load` + `librosa.feature.mfcc` calls inside the `try` block.  The
result is the optional matrix together with the printed lines: the `except`
clause prints one diagnostic and yields `None`. -/
def extract_mfcc (filepath : List Char) (decoded : Except String (List (List ℚ))) :
    Option (List (List ℚ)) × List String :=
  match decoded with
  | Except.error e =>
    (none, ["Error processing " ++ String.mk filepath ++ ": " ++ e])
  | Except.ok mfcc => (some (pad_or_truncate mfcc), [])

/-- The "Prepare data" loop: over the metadata rows in table order, extract
each row's MFCC matrix (with `decode` the per-file decoding oracle) and
append matrix and emotion label exactly when extraction returned a matrix. -/
def prepare_data (df : List MetaRow)
    (decode : List Char → Except String (List (List ℚ))) :
    List (List (List ℚ)) × List (List Char) :=
  df.foldl
    (fun acc row =>
      match (extract_mfcc row.filepath (decode row.filepath)).1 with
      | some mfcc => (acc.1 ++ [mfcc], acc.2 ++ [row.emotion])
      | none => acc)
    ([], [])

/-- numpy `np.mean(X, axis=0)` at position `(j, k)` of a 3-D array given as
a list of samples (missing positions read as 0; the shape hypotheses of the
theorems rule that out). -/
def np_mean0 (X : List (List (List ℚ))) (j k : Nat) : ℚ :=
  (X.map (fun s => (s.getD j []).getD k 0)).sum / (X.length : ℚ)

/-- numpy `np.var(X, axis=0)` (ddof = 0) at position `(j, k)`. -/
def np_var0 (X : List (List (List ℚ))) (j k : Nat) : ℚ :=
  (X.map (fun s => ((s.getD j []).getD k 0 - np_mean0 X j k) ^ 2)).sum / (X.length : ℚ)

/-- numpy `np.std(X, axis=0)` at `(j, k)`: the square root of the ddof-0
variance, with the square root an uninterpreted parameter (see the header). -/
def np_std0 (sqrt : ℚ → ℚ) (X : List (List (List ℚ))) (j k : Nat) : ℚ :=
  sqrt (np_var0 X j k)

/-- The normalization line of `load_data`:
`X = (X - np.mean(X, axis=0)) / np.std(X, axis=0)`, the `(40, 174)` mean
and std arrays broadcast over the sample axis. -/
def normalize (sqrt : ℚ → ℚ) (X : List (List (List ℚ))) : List (List (List ℚ)) :=
  X.map (fun s =>
    s.mapIdx (fun j row =>
      row.mapIdx (fun k v => (v - np_mean0 X j k) / np_std0 sqrt X j k)))

/-- `X = X[..., np.newaxis]`: every scalar becomes a singleton channel. -/
def add_channel (X : List (List (List ℚ))) : List (List (List (List ℚ))) :=
  X.map (fun s => s.map (fun row => row.map (fun v => [v])))

/-- sklearn `LabelEncoder().fit(y).classes_` = `np.unique(y)`: the distinct
labels of `y` in sorted (lexicographic, as Python compares strings) order. -/
def np_unique (y : List (List Char)) : List (List Char) :=
  List.insertionSort (fun a b => a ≤ b) y.dedup

/-- sklearn `le.fit_transform(y)`: each label's index in the sorted class
list. -/
def le_transform (y : List (List Char)) : List Nat :=
  y.map (fun l => (np_unique y).indexOf l)

/-- numpy `np.max` over a list of naturals (0 on the empty list, on which
numpy raises instead; equal to the maximum on any nonempty list). -/
def np_max_nat (l : List Nat) : Nat := l.foldr max 0

/-- keras `to_categorical(ys)` with its default width `np.max(ys) + 1`:
one row per entry, 1.0 at the entry's index and 0.0 elsewhere. -/
def to_categorical (ys : List Nat) : List (List ℚ) :=
  ys.map (fun i => (List.range (np_max_nat ys + 1)).map (fun j => if j = i then (1 : ℚ) else 0))

/-- `load_data` of the notebook with the two `np.load`ed arrays passed in:
the normalized channel-expanded tensor, the one-hot label matrix, and the
fitted encoder's class list. -/
def load_data (sqrt : ℚ → ℚ) (X : List (List (List ℚ))) (y : List (List Char)) :
    List (List (List (List ℚ))) × List (List ℚ) × List (List Char) :=
  (add_channel (normalize sqrt X), to_categorical (le_transform y), np_unique y)

/-- Scanner of numpy `np.argmax`: fold over the remaining entries keeping
the first index attaining the running maximum (`x > best` updates). -/
def argmaxAux (best : ℚ) (bi i : Nat) : List ℚ → Nat
  | [] => bi
  | x :: xs => if best < x then argmaxAux x i (i + 1) xs else argmaxAux best bi (i + 1) xs

/-- numpy `np.argmax` over one row: the first index of the maximum (0 on
the empty row, on which numpy raises instead). -/
def np_argmax (l : List ℚ) : Nat :=
  match l with
  | [] => 0
  | x :: xs => argmaxAux x 0 1 xs

/-- The shape-level content of `build_model`: the declared input shape and
the width of the softmax output layer. -/
structure CNNConfig where
  input_shape : Nat × Nat × Nat
  num_classes : Nat
deriving DecidableEq, Repr

/-- `build_model(input_shape, num_classes)` at the shape level. -/
def build_model (input_shape : Nat × Nat × Nat) (num_classes : Nat) : CNNConfig :=
  { input_shape := input_shape, num_classes := num_classes }

/-- The model `main()` builds: `build_model()` with its default arguments
`input_shape=(40, 174, 1)` and `num_classes=8`. -/
def main_model : CNNConfig := build_model (40, 174, 1) 8

/-! ## The spec-side form of the code table, and helper lemmas -/

/-- The emotion code table as spec §3 states it: an explicit case chain,
any code outside the eight rows mapping to "unknown". -/
def specEmotionLabel (code : List Char) : List Char :=
  if code = ['0', '1'] then "neutral".toList
  else if code = ['0', '2'] then "calm".toList
  else if code = ['0', '3'] then "happy".toList
  else if code = ['0', '4'] then "sad".toList
  else if code = ['0', '5'] then "angry".toList
  else if code = ['0', '6'] then "fearful".toList
  else if code = ['0', '7'] then "disgust".toList
  else if code = ['0', '8'] then "surprised".toList
  else "unknown".toList

theorem dictGet_eq_specEmotionLabel (code : List Char) :
    dictGet emotion_map code "unknown".toList = specEmotionLabel code := by
  unfold specEmotionLabel
  split_ifs with h1 h2 h3 h4 h5 h6 h7 h8
  · subst h1; rfl
  · subst h2; rfl
  · subst h3; rfl
  · subst h4; rfl
  · subst h5; rfl
  · subst h6; rfl
  · subst h7; rfl
  · subst h8; rfl
  · have e1 : (['0', '1'] == code) = false := beq_eq_false_iff_ne.mpr (Ne.symm h1)
    have e2 : (['0', '2'] == code) = false := beq_eq_false_iff_ne.mpr (Ne.symm h2)
    have e3 : (['0', '3'] == code) = false := beq_eq_false_iff_ne.mpr (Ne.symm h3)
    have e4 : (['0', '4'] == code) = false := beq_eq_false_iff_ne.mpr (Ne.symm h4)
    have e5 : (['0', '5'] == code) = false := beq_eq_false_iff_ne.mpr (Ne.symm h5)
    have e6 : (['0', '6'] == code) = false := beq_eq_false_iff_ne.mpr (Ne.symm h6)
    have e7 : (['0', '7'] == code) = false := beq_eq_false_iff_ne.mpr (Ne.symm h7)
    have e8 : (['0', '8'] == code) = false := beq_eq_false_iff_ne.mpr (Ne.symm h8)
    simp [dictGet, emotion_map, List.find?_cons, e1, e2, e3, e4, e5, e6, e7, e8]

theorem shape1_eq_of_uniform (mfcc : List (List ℚ)) (t : Nat) (hne : mfcc ≠ [])
    (huni : ∀ row ∈ mfcc, row.length = t) : shape1 mfcc = t := by
  cases mfcc with
  | nil => exact absurd rfl hne
  | cons r rs => exact huni r (List.mem_cons_self r rs)

/-- Matrix/label pairs of the rows whose extraction succeeded, in table
order: the explicit form the "Prepare data" loop is proved equal to. -/
def successPairs (df : List MetaRow)
    (decode : List Char → Except String (List (List ℚ))) :
    List (List (List ℚ) × List Char) :=
  df.filterMap (fun row =>
    ((extract_mfcc row.filepath (decode row.filepath)).1).map
      (fun mfcc => (mfcc, row.emotion)))

theorem prepare_data_foldl (df : List MetaRow)
    (decode : List Char → Except String (List (List ℚ)))
    (a : List (List (List ℚ))) (b : List (List Char)) :
    (df.foldl
      (fun acc row =>
        match (extract_mfcc row.filepath (decode row.filepath)).1 with
        | some mfcc => (acc.1 ++ [mfcc], acc.2 ++ [row.emotion])
        | none => acc)
      (a, b)) =
    (a ++ (successPairs df decode).map Prod.fst,
     b ++ (successPairs df decode).map Prod.snd) := by
  induction df generalizing a b with
  | nil => simp [successPairs]
  | cons row df ih =>
    cases h : (extract_mfcc row.filepath (decode row.filepath)).1 with
    | some mfcc => simp [successPairs, List.filterMap_cons, h, ih]
    | none => simp [successPairs, List.filterMap_cons, h, ih]

theorem successPairs_length (df : List MetaRow)
    (decode : List Char → Except String (List (List ℚ))) :
    (successPairs df decode).length =
      df.countP (fun row => ((extract_mfcc row.filepath (decode row.filepath)).1).isSome) := by
  induction df with
  | nil => rfl
  | cons row df ih =>
    cases h : (extract_mfcc row.filepath (decode row.filepath)).1 with
    | some mfcc =>
      simpa [successPairs, List.filterMap_cons, h, List.countP_cons] using ih
    | none =>
      simpa [successPairs, List.filterMap_cons, h, List.countP_cons] using ih

/-! ## The claims -/

/-- C1: for every file whose name ends in `.wav` and splits on `-` into
exactly 7 parts (and whose 7th part parses as an integer, without which no
record is built at all, see C10), the metadata record has emotion equal to
the code table's label for the 3rd part (codes outside the table mapping to
"unknown"), actor_id the integer parsed from the 7th part before its
extension, and gender "female" for even actor_id, "male" for odd. -/
theorem c1_filename_parsing (subdir file : List Char) (n : Int)
    (hwav : endsWithWav file = true)
    (h7 : (splitOnChar '-' file).length = 7)
    (hint : pythonIntChars ((splitOnChar '.' ((splitOnChar '-' file).getD 6 [])).getD 0 []) =
      some n) :
    ∃ m : MetaRow,
      parseWavFile subdir file = Except.ok (some m) ∧
      m.emotion = specEmotionLabel ((splitOnChar '-' file).getD 2 []) ∧
      m.actor_id = n ∧
      m.gender = (if n % 2 = 0 then "female".toList else "male".toList) := by
  refine ⟨{ filename := file
            filepath := subdir ++ '/' :: file
            emotion := dictGet emotion_map ((splitOnChar '-' file).getD 2 []) "unknown".toList
            gender := if n % 2 = 0 then "female".toList else "male".toList
            actor_id := n }, ?_, dictGet_eq_specEmotionLabel _, rfl, rfl⟩
  have hint2 := hint
  simp [h7] at hint2
  simp [parseWavFile, hwav, h7, hint2]

/-- Witness for C1 at the spec's example filename: the record is built with
emotion "angry" (code "05") and actor 12. -/
theorem c1_filename_parsing_witness :
    ∃ m : MetaRow,
      parseWavFile "input".toList "03-01-05-01-01-01-12.wav".toList = Except.ok (some m) ∧
      m.emotion =
        specEmotionLabel ((splitOnChar '-' "03-01-05-01-01-01-12.wav".toList).getD 2 []) ∧
      m.actor_id = 12 ∧
      m.gender = (if (12 : Int) % 2 = 0 then "female".toList else "male".toList) :=
  c1_filename_parsing "input".toList "03-01-05-01-01-01-12.wav".toList 12
    (by decide) (by decide) (by decide)

/-- C2: a successful `extract_mfcc` call on audio whose natural MFCC matrix
has 40 rows of t frames each returns a matrix of shape exactly (40, 174):
right-padded with zeros when t < 174, truncated to the first 174 frames
otherwise. -/
theorem c2_mfcc_shape_invariant (fp : List Char) (mfcc : List (List ℚ)) (t : Nat)
    (hrows : mfcc.length = n_mfcc)
    (huni : ∀ row ∈ mfcc, row.length = t) :
    ∃ M, (extract_mfcc fp (Except.ok mfcc)).1 = some M ∧
      M.length = n_mfcc ∧
      (∀ row ∈ M, row.length = max_pad_len) ∧
      M = (if t < max_pad_len
           then mfcc.map (fun row => row ++ List.replicate (max_pad_len - t) 0)
           else mfcc.map (fun row => row.take max_pad_len)) := by
  have hne : mfcc ≠ [] := by
    intro h
    rw [h] at hrows
    simp [n_mfcc] at hrows
  have hs : shape1 mfcc = t := shape1_eq_of_uniform mfcc t hne huni
  refine ⟨pad_or_truncate mfcc, rfl, ?_, ?_, ?_⟩
  · unfold pad_or_truncate
    rw [hs]
    split <;> simpa using hrows
  · intro row hrow
    unfold pad_or_truncate at hrow
    rw [hs] at hrow
    by_cases hlt : t < max_pad_len
    · rw [if_pos hlt] at hrow
      obtain ⟨r0, hr0, rfl⟩ := List.mem_map.mp hrow
      have := huni r0 hr0
      simp [this]
      omega
    · rw [if_neg hlt] at hrow
      obtain ⟨r0, hr0, rfl⟩ := List.mem_map.mp hrow
      have := huni r0 hr0
      simp [List.length_take, this]
      omega
  · unfold pad_or_truncate
    rw [hs]

/-- Witness for C2 at a concrete 40-row, 1-frame matrix: it is padded out
to 174 frames. -/
theorem c2_mfcc_shape_invariant_witness :
    ∃ M, (extract_mfcc [] (Except.ok (List.replicate 40 [(7 : ℚ)]))).1 = some M ∧
      M.length = n_mfcc ∧
      (∀ row ∈ M, row.length = max_pad_len) ∧
      M = (if 1 < max_pad_len
           then (List.replicate 40 [(7 : ℚ)]).map
             (fun row => row ++ List.replicate (max_pad_len - 1) 0)
           else (List.replicate 40 [(7 : ℚ)]).map (fun row => row.take max_pad_len)) :=
  c2_mfcc_shape_invariant [] (List.replicate 40 [(7 : ℚ)]) 1
    (by decide) (by decide)

/-- C3: `extract_mfcc` never propagates a decode/compute failure: on any
failure it returns no matrix and prints exactly one diagnostic naming the
file path and the underlying cause, and on success it returns a matrix and
prints nothing.  Its Lean type is total: no exception escapes. -/
theorem c3_extract_error_absorbed :
    (∀ (fp : List Char) (e : String),
        extract_mfcc fp (Except.error e) =
          (none, ["Error processing " ++ String.mk fp ++ ": " ++ e])) ∧
    (∀ (fp : List Char) (mfcc : List (List ℚ)),
        extract_mfcc fp (Except.ok mfcc) = (some (pad_or_truncate mfcc), [])) :=
  ⟨fun _ _ => rfl, fun _ _ => rfl⟩

/-- C4: after the dataset-building loop, features and labels are the two
projections of the success pairs taken in metadata-table order (so they
have the same number of rows, row i's label is the emotion of the row that
produced matrix i), and that common length is the number of rows whose
extraction succeeded. -/
theorem c4_dataset_rows_aligned (df : List MetaRow)
    (decode : List Char → Except String (List (List ℚ))) :
    prepare_data df decode =
      ((successPairs df decode).map Prod.fst, (successPairs df decode).map Prod.snd) ∧
    (prepare_data df decode).1.length =
      df.countP (fun row => ((extract_mfcc row.filepath (decode row.filepath)).1).isSome) ∧
    (prepare_data df decode).2.length =
      df.countP (fun row => ((extract_mfcc row.filepath (decode row.filepath)).1).isSome) := by
  have h := prepare_data_foldl df decode [] []
  have hmain : prepare_data df decode =
      ((successPairs df decode).map Prod.fst, (successPairs df decode).map Prod.snd) := by
    simpa [prepare_data] using h
  refine ⟨hmain, ?_, ?_⟩
  · rw [hmain]
    simpa using successPairs_length df decode
  · rw [hmain]
    simpa using successPairs_length df decode

theorem load_data_fst_eq (sqrt : ℚ → ℚ) (X : List (List (List ℚ))) (y : List (List Char)) :
    (load_data sqrt X y).1 =
      X.map (fun s =>
        (s.mapIdx (fun j row =>
          row.mapIdx (fun k v => (v - np_mean0 X j k) / np_std0 sqrt X j k))).map
            (fun row => row.map (fun v => [v]))) := by
  simp [load_data, add_channel, normalize, List.map_map, Function.comp]

/-- C5: `load_data` returns the feature tensor normalized entrywise to
`(x - μ) / σ` with `μ` the axis-0 mean and `σ` the axis-0 standard
deviation of the loaded array, with a trailing singleton channel axis, so
an `(N, R, C)` input becomes an `(N, R, C, 1)` tensor (the claim's instance
being `R = 40`, `C = 174`). -/
theorem c5_load_data_normalizes (sqrt : ℚ → ℚ) (X : List (List (List ℚ)))
    (y : List (List Char)) (R C : Nat)
    (hshape : ∀ s ∈ X, s.length = R ∧ ∀ row ∈ s, row.length = C) :
    (load_data sqrt X y).1.length = X.length ∧
    (∀ s ∈ (load_data sqrt X y).1, s.length = R ∧
        ∀ row ∈ s, row.length = C ∧ ∀ v ∈ row, v.length = 1) ∧
    (∀ i j k, i < X.length → j < R → k < C →
        ((((load_data sqrt X y).1.getD i []).getD j []).getD k [] =
          [(((X.getD i []).getD j []).getD k 0 - np_mean0 X j k) / np_std0 sqrt X j k])) := by
  rw [load_data_fst_eq]
  refine ⟨by simp, ?_, ?_⟩
  · intro s hs
    obtain ⟨s0, hs0, rfl⟩ := List.mem_map.mp hs
    obtain ⟨hlen, hrows⟩ := hshape s0 hs0
    refine ⟨by simp [hlen], ?_⟩
    intro row hrow
    obtain ⟨row0, hrow0, rfl⟩ := List.mem_map.mp hrow
    obtain ⟨j, hj, hjeq⟩ := List.mem_iff_getElem.mp hrow0
    rw [List.getElem_mapIdx] at hjeq
    subst hjeq
    have hj0 : j < s0.length := by simpa using hj
    have hrlen : s0[j].length = C := hrows _ (List.getElem_mem hj0)
    refine ⟨by simp [hrlen], ?_⟩
    intro v hv
    obtain ⟨v0, _, rfl⟩ := List.mem_map.mp hv
    rfl
  · intro i j k hi hj hk
    have hi' : i < (X.map (fun s =>
        (s.mapIdx (fun j row =>
          row.mapIdx (fun k v => (v - np_mean0 X j k) / np_std0 sqrt X j k))).map
            (fun row => row.map (fun v => [v])))).length := by simpa using hi
    rw [List.getD_eq_getElem _ _ hi', List.getElem_map]
    obtain ⟨hleni, hrowsi⟩ := hshape (X[i]) (List.getElem_mem hi)
    have hj0 : j < (X[i]).length := by omega
    have hj' : j < (((X[i]).mapIdx (fun j row =>
        row.mapIdx (fun k v => (v - np_mean0 X j k) / np_std0 sqrt X j k))).map
          (fun row => row.map (fun v => [v]))).length := by
      simpa [hleni] using hj
    rw [List.getD_eq_getElem _ _ hj', List.getElem_map, List.getElem_mapIdx]
    have hrowlen : (X[i][j]).length = C := hrowsi _ (List.getElem_mem hj0)
    have hk0 : k < (X[i][j]).length := by omega
    have hk'' : k < (((X[i][j]).mapIdx
        (fun k v => (v - np_mean0 X j k) / np_std0 sqrt X j k)).map
          (fun v => [v])).length := by
      simpa [hrowlen] using hk
    rw [List.getD_eq_getElem _ _ hk'', List.getElem_map, List.getElem_mapIdx]
    rw [List.getD_eq_getElem _ _ hi, List.getD_eq_getElem _ _ hj0,
      List.getD_eq_getElem _ _ hk0]

/-- Witness for C5 at a concrete (2, 2, 2) tensor. -/
theorem c5_load_data_normalizes_witness :
    (load_data id [[[1, 2], [3, 4]], [[5, 6], [7, 8]]] ["a".toList]).1.length =
      ([[[(1 : ℚ), 2], [3, 4]], [[5, 6], [7, 8]]] : List (List (List ℚ))).length ∧
    (∀ s ∈ (load_data id [[[(1 : ℚ), 2], [3, 4]], [[5, 6], [7, 8]]] ["a".toList]).1,
        s.length = 2 ∧ ∀ row ∈ s, row.length = 2 ∧ ∀ v ∈ row, v.length = 1) ∧
    (∀ i j k, i < ([[[(1 : ℚ), 2], [3, 4]], [[5, 6], [7, 8]]] : List (List (List ℚ))).length →
        j < 2 → k < 2 →
        ((((load_data id [[[(1 : ℚ), 2], [3, 4]], [[5, 6], [7, 8]]] ["a".toList]).1.getD i
            []).getD j []).getD k [] =
          [((((([[[(1 : ℚ), 2], [3, 4]], [[5, 6], [7, 8]]] :
              List (List (List ℚ))).getD i []).getD j []).getD k 0 -
              np_mean0 [[[1, 2], [3, 4]], [[5, 6], [7, 8]]] j k) /
            np_std0 id [[[1, 2], [3, 4]], [[5, 6], [7, 8]]] j k)])) :=
  c5_load_data_normalizes id [[[1, 2], [3, 4]], [[5, 6], [7, 8]]] ["a".toList] 2 2
    (by decide)

/-- C6: with a zero-variance feature position, the standard deviation there
is exactly zero and `load_data` still divides by it, returning a full
tensor whose entry at that position is the (junk-valued, in this exact
model; non-finite in floating point) quotient by zero — no guard, no early
error. -/
theorem c6_zero_variance_unguarded (sqrt : ℚ → ℚ) (X : List (List (List ℚ)))
    (y : List (List Char)) (i j k : Nat)
    (hsqrt : sqrt 0 = 0)
    (hvar : np_var0 X j k = 0)
    (hi : i < X.length) (hj : j < (X.getD i []).length)
    (hk : k < ((X.getD i []).getD j []).length) :
    np_std0 sqrt X j k = 0 ∧
    (load_data sqrt X y).1.length = X.length ∧
    ((((load_data sqrt X y).1.getD i []).getD j []).getD k [] =
      [(((X.getD i []).getD j []).getD k 0 - np_mean0 X j k) / 0]) := by
  have hstd : np_std0 sqrt X j k = 0 := by
    unfold np_std0
    rw [hvar, hsqrt]
  refine ⟨hstd, by rw [load_data_fst_eq]; simp, ?_⟩
  rw [List.getD_eq_getElem _ _ hi] at hj
  rw [List.getD_eq_getElem _ _ hi, List.getD_eq_getElem _ _ hj] at hk
  rw [load_data_fst_eq]
  have hi' : i < (X.map (fun s =>
      (s.mapIdx (fun j row =>
        row.mapIdx (fun k v => (v - np_mean0 X j k) / np_std0 sqrt X j k))).map
          (fun row => row.map (fun v => [v])))).length := by simpa using hi
  rw [List.getD_eq_getElem _ _ hi', List.getElem_map]
  have hj' : j < (((X[i]).mapIdx (fun j row =>
      row.mapIdx (fun k v => (v - np_mean0 X j k) / np_std0 sqrt X j k))).map
        (fun row => row.map (fun v => [v]))).length := by
    simpa using hj
  rw [List.getD_eq_getElem _ _ hj', List.getElem_map, List.getElem_mapIdx]
  have hk'' : k < (((X[i][j]).mapIdx
      (fun k v => (v - np_mean0 X j k) / np_std0 sqrt X j k)).map
        (fun v => [v])).length := by
    simpa using hk
  rw [List.getD_eq_getElem _ _ hk'', List.getElem_map, List.getElem_mapIdx]
  rw [List.getD_eq_getElem _ _ hi, List.getD_eq_getElem _ _ hj,
    List.getD_eq_getElem _ _ hk, hstd]

/-- Witness for C6: two identical samples make every position
zero-variance; at position (0, 0, 0) the entry is a division by zero. -/
theorem c6_zero_variance_unguarded_witness :
    np_std0 id [[[(1 : ℚ)]], [[1]]] 0 0 = 0 ∧
    (load_data id [[[(1 : ℚ)]], [[1]]] ["a".toList]).1.length =
      ([[[(1 : ℚ)]], [[1]]] : List (List (List ℚ))).length ∧
    ((((load_data id [[[(1 : ℚ)]], [[1]]] ["a".toList]).1.getD 0 []).getD 0 []).getD 0 [] =
      [((((([[[(1 : ℚ)]], [[1]]] : List (List (List ℚ))).getD 0 []).getD 0 []).getD 0 0 -
          np_mean0 [[[1]], [[1]]] 0 0) / 0)]) :=
  c6_zero_variance_unguarded id [[[(1 : ℚ)]], [[1]]] ["a".toList] 0 0 0 rfl
    (by norm_num [np_var0, np_mean0]) (by decide) (by decide) (by decide)

/-! ## Label-encoder and argmax lemmas (for C7 and C9) -/

theorem mem_np_unique {l : List Char} {y : List (List Char)} :
    l ∈ np_unique y ↔ l ∈ y := by
  unfold np_unique
  rw [(List.perm_insertionSort _ _).mem_iff, List.mem_dedup]

theorem nodup_np_unique (y : List (List Char)) : (np_unique y).Nodup := by
  unfold np_unique
  exact ((List.perm_insertionSort _ _).nodup_iff).mpr (List.nodup_dedup y)

theorem length_np_unique (y : List (List Char)) :
    (np_unique y).length = y.dedup.length := by
  unfold np_unique
  exact (List.perm_insertionSort _ _).length_eq

theorem le_np_max_nat {a : Nat} {l : List Nat} (h : a ∈ l) : a ≤ np_max_nat l := by
  induction l with
  | nil => cases h
  | cons x xs ih =>
    rcases List.mem_cons.mp h with rfl | h2
    · exact le_max_left _ _
    · exact le_trans (ih h2) (le_max_right _ _)

theorem indexOf_lt_length_of_mem {α : Type} [BEq α] [LawfulBEq α] {a : α}
    {l : List α} (h : a ∈ l) : l.indexOf a < l.length := by
  induction l with
  | nil => cases h
  | cons b l ih =>
    rw [List.indexOf_cons]
    cases hba : b == a with
    | true => simp
    | false =>
      have h2 : a ∈ l := by
        rcases List.mem_cons.mp h with rfl | h2
        · rw [beq_eq_false_iff_ne] at hba
          exact absurd rfl hba
        · exact h2
      simpa using Nat.succ_lt_succ (ih h2)

theorem getD_indexOf_of_mem {α : Type} [BEq α] [LawfulBEq α] {a : α}
    {l : List α} (h : a ∈ l) (d : α) : l.getD (l.indexOf a) d = a := by
  induction l with
  | nil => cases h
  | cons b l ih =>
    rw [List.indexOf_cons]
    cases hba : b == a with
    | true =>
      rw [beq_iff_eq] at hba
      simpa using hba
    | false =>
      have h2 : a ∈ l := by
        rcases List.mem_cons.mp h with rfl | h2
        · rw [beq_eq_false_iff_ne] at hba
          exact absurd rfl hba
        · exact h2
      simpa using ih h2

theorem indexOf_getElem_of_nodup {α : Type} [BEq α] [LawfulBEq α] {l : List α}
    (hn : l.Nodup) (i : Nat) (h : i < l.length) : l.indexOf l[i] = i := by
  induction l generalizing i with
  | nil => simp at h
  | cons b l ih =>
    cases i with
    | zero => simp [List.indexOf_cons]
    | succ i =>
      have hbl : b ∉ l := (List.nodup_cons.mp hn).1
      have hn2 : l.Nodup := (List.nodup_cons.mp hn).2
      have h2 : i < l.length := by simpa using h
      have hget : (b :: l)[i + 1] = l[i] := List.getElem_cons_succ b l i h
      rw [hget, List.indexOf_cons]
      have hne : (b == l[i]) = false := by
        rw [beq_eq_false_iff_ne]
        intro heq
        exact hbl (heq ▸ List.getElem_mem h2)
      rw [hne, cond_false, ih hn2 i h2]

theorem np_max_nat_le {m : Nat} {l : List Nat} (h : ∀ a ∈ l, a ≤ m) :
    np_max_nat l ≤ m := by
  induction l with
  | nil => exact Nat.zero_le m
  | cons x xs ih =>
    exact max_le (h x (List.mem_cons_self x xs))
      (ih (fun a ha => h a (List.mem_cons_of_mem x ha)))

theorem argmaxAux_replicate_zero (b : ℚ) (hb : 0 ≤ b) (bi i r : Nat) :
    argmaxAux b bi i (List.replicate r 0) = bi := by
  induction r generalizing i with
  | zero => rfl
  | succ r ih =>
    rw [List.replicate_succ]
    simp only [argmaxAux, if_neg (not_lt.mpr hb)]
    exact ih (i + 1)

theorem argmaxAux_replicate_zero_append (b : ℚ) (hb : 0 ≤ b) (bi i r : Nat)
    (rest : List ℚ) :
    argmaxAux b bi i (List.replicate r 0 ++ rest) = argmaxAux b bi (i + r) rest := by
  induction r generalizing i with
  | zero => rfl
  | succ r ih =>
    rw [List.replicate_succ, List.cons_append]
    simp only [argmaxAux, if_neg (not_lt.mpr hb)]
    rw [ih (i + 1)]
    congr 1
    omega

theorem np_argmax_oneHot (i r : Nat) :
    np_argmax (List.replicate i 0 ++ (1 : ℚ) :: List.replicate r 0) = i := by
  cases i with
  | zero =>
    simp only [List.replicate, List.nil_append, np_argmax]
    exact argmaxAux_replicate_zero 1 (by norm_num) 0 1 r
  | succ i =>
    rw [List.replicate_succ, List.cons_append]
    simp only [np_argmax]
    rw [argmaxAux_replicate_zero_append 0 le_rfl 0 1 i _]
    simp only [argmaxAux, if_pos (by norm_num : (0 : ℚ) < 1)]
    rw [argmaxAux_replicate_zero 1 (by norm_num)]
    omega

theorem oneHot_eq_replicate (w i : Nat) (hi : i < w) :
    (List.range w).map (fun j => if j = i then (1 : ℚ) else 0) =
      List.replicate i 0 ++ (1 : ℚ) :: List.replicate (w - i - 1) 0 := by
  rw [show w = i + (w - i) by omega, List.range_add, List.map_append]
  congr 1
  · apply List.eq_replicate_iff.mpr
    refine ⟨by simp, ?_⟩
    intro b hb
    obtain ⟨j, hj, rfl⟩ := List.mem_map.mp hb
    have : j < i := List.mem_range.mp hj
    simp [Nat.ne_of_lt this]
  · rw [List.map_map, show w - i = (w - i - 1) + 1 by omega, List.range_succ_eq_map,
      List.map_cons]
    congr 1
    · simp [Function.comp]
    · rw [List.map_map]
      apply List.eq_replicate_iff.mpr
      refine ⟨by simp, ?_⟩
      intro b hb
      obtain ⟨j, _, rfl⟩ := List.mem_map.mp hb
      have hne : i + j.succ ≠ i := by omega
      simp [Function.comp, hne]

/-- C7: encoding every label to its class index, expanding to one-hot with
the code's width, taking the first index of the per-row maximum and mapping
it back through the encoder's class list recovers the original label
vector exactly. -/
theorem c7_label_onehot_roundtrip (y : List (List Char)) :
    (to_categorical (le_transform y)).map
      (fun row => (np_unique y).getD (np_argmax row) []) = y := by
  unfold to_categorical le_transform
  rw [List.map_map, List.map_map]
  refine (List.map_congr_left ?_).trans (List.map_id y)
  intro l hl
  simp only [Function.comp_apply, id_eq]
  have hmemu : l ∈ np_unique y := mem_np_unique.mpr hl
  have hmem2 : (np_unique y).indexOf l ∈
      List.map (fun l => (np_unique y).indexOf l) y :=
    List.mem_map_of_mem (fun l => (np_unique y).indexOf l) hl
  have hw : (np_unique y).indexOf l <
      np_max_nat (List.map (fun l => (np_unique y).indexOf l) y) + 1 :=
    Nat.lt_succ_of_le (le_np_max_nat hmem2)
  rw [oneHot_eq_replicate _ _ hw, np_argmax_oneHot]
  exact getD_indexOf_of_mem hmemu []

/-- C9: the one-hot width produced by `load_data` equals the number of
distinct labels actually present in the label vector (so it is
data-dependent), while `main` always builds the model with
`num_classes = 8` (the default of `build_model`). -/
theorem c9_num_classes_data_dependent (y : List (List Char)) (hy : y ≠ []) :
    (∀ row ∈ to_categorical (le_transform y), row.length = y.dedup.length) ∧
    main_model.num_classes = 8 := by
  refine ⟨?_, rfl⟩
  have hk : 0 < (np_unique y).length := by
    obtain ⟨l, hl⟩ := List.exists_mem_of_ne_nil y hy
    exact List.length_pos.mpr (List.ne_nil_of_mem (mem_np_unique.mpr hl))
  have hmax : np_max_nat (le_transform y) + 1 = (np_unique y).length := by
    have hle : np_max_nat (le_transform y) ≤ (np_unique y).length - 1 := by
      apply np_max_nat_le
      intro a ha
      obtain ⟨l, hl, rfl⟩ := List.mem_map.mp ha
      have hlt := indexOf_lt_length_of_mem (mem_np_unique.mpr hl)
      omega
    have hge : (np_unique y).length - 1 ≤ np_max_nat (le_transform y) := by
      have hlt : (np_unique y).length - 1 < (np_unique y).length := by omega
      have hcmem : (np_unique y)[(np_unique y).length - 1] ∈ np_unique y :=
        List.getElem_mem hlt
      have hcy : (np_unique y)[(np_unique y).length - 1] ∈ y :=
        mem_np_unique.mp hcmem
      have hidx : (np_unique y).indexOf ((np_unique y)[(np_unique y).length - 1]) =
          (np_unique y).length - 1 :=
        indexOf_getElem_of_nodup (nodup_np_unique y) _ hlt
      have hmm : (np_unique y).indexOf ((np_unique y)[(np_unique y).length - 1]) ∈
          le_transform y :=
        List.mem_map_of_mem (fun l => (np_unique y).indexOf l) hcy
      rw [hidx] at hmm
      exact le_np_max_nat hmm
    omega
  intro row hrow
  obtain ⟨i, _, rfl⟩ := List.mem_map.mp hrow
  simp only [List.length_map, List.length_range]
  rw [hmax, length_np_unique]
theorem c9_num_classes_data_dependent_witness :
    (∀ row ∈ to_categorical (le_transform ["a".toList, "b".toList, "a".toList]),
        row.length = (["a".toList, "b".toList, "a".toList].dedup).length) ∧
    main_model.num_classes = 8 :=
  c9_num_classes_data_dependent ["a".toList, "b".toList, "a".toList] (by decide)

theorem parseWavFile_not_wav (subdir file : List Char)
    (hw : endsWithWav file = false) : parseWavFile subdir file = Except.ok none := by
  simp [parseWavFile, hw]

theorem parseWavFile_wrong_parts (subdir file : List Char)
    (hwav : endsWithWav file = true) (h7 : (splitOnChar '-' file).length ≠ 7) :
    parseWavFile subdir file = Except.ok none := by
  simp [parseWavFile, hwav, h7]

/-- C8: a `.wav` filename that does not split into exactly 7 parts is
skipped without error, the scan of an empty directory is the empty table,
and the scan of a directory of only skipped files (non-`.wav` or wrong
part count) is the empty table, with no failure. -/
theorem c8_malformed_files_skipped :
    (∀ subdir file : List Char, endsWithWav file = true →
        (splitOnChar '-' file).length ≠ 7 →
        parseWavFile subdir file = Except.ok none) ∧
    scanFiles [] = Except.ok [] ∧
    (∀ files : List (List Char × List Char),
        (∀ p ∈ files, endsWithWav p.2 = false ∨ (splitOnChar '-' p.2).length ≠ 7) →
        scanFiles files = Except.ok []) := by
  refine ⟨parseWavFile_wrong_parts, rfl, ?_⟩
  intro files
  induction files with
  | nil => intro _; rfl
  | cons p ps ih =>
    intro hall
    have hrest : scanFiles ps = Except.ok [] :=
      ih (fun q hq => hall q (List.mem_cons_of_mem p hq))
    have hp : parseWavFile p.1 p.2 = Except.ok none := by
      rcases hall p (List.mem_cons_self p ps) with hw | h7
      · exact parseWavFile_not_wav p.1 p.2 hw
      · by_cases hwav : endsWithWav p.2 = true
        · exact parseWavFile_wrong_parts p.1 p.2 hwav h7
        · exact parseWavFile_not_wav p.1 p.2 (by simpa using hwav)
    cases p with
    | mk subdir file =>
      simp only [scanFiles]
      rw [hp]
      exact hrest

theorem scanFiles_error_prop (pre : List (List Char × List Char))
    (rest : List (List Char × List Char))
    (hpre : ∀ p ∈ pre, ∃ r, parseWavFile p.1 p.2 = Except.ok r)
    (e : String) (hrest : scanFiles rest = Except.error e) :
    scanFiles (pre ++ rest) = Except.error e := by
  induction pre with
  | nil => simpa using hrest
  | cons p ps ih =>
    have hrec : scanFiles (ps ++ rest) = Except.error e :=
      ih (fun q hq => hpre q (List.mem_cons_of_mem p hq))
    obtain ⟨r, hr⟩ := hpre p (List.mem_cons_self p ps)
    cases p with
    | mk subdir file =>
      cases r with
      | none =>
        simp only [List.cons_append, scanFiles]
        rw [hr]
        exact hrec
      | some m =>
        simp only [List.cons_append, scanFiles]
        rw [hr]
        simp only [List.append_eq]
        rw [hrec]

/-- C10 (implicit): a `.wav` filename with exactly 7 hyphen-separated
parts whose 7th part does not parse as an integer makes the `int()` call
raise: the entry is neither skipped nor recorded, and the whole scan
aborts with that error (earlier entries that parse cleanly do not save
it). -/
theorem c10_unparsable_actor_aborts_scan (subdir file : List Char)
    (pre post : List (List Char × List Char))
    (hwav : endsWithWav file = true)
    (h7 : (splitOnChar '-' file).length = 7)
    (hbad : pythonIntChars ((splitOnChar '.' ((splitOnChar '-' file).getD 6 [])).getD 0 []) =
      none)
    (hpre : ∀ p ∈ pre, ∃ r, parseWavFile p.1 p.2 = Except.ok r) :
    (∃ e, parseWavFile subdir file = Except.error e) ∧
    (∃ e, scanFiles (pre ++ (subdir, file) :: post) = Except.error e) := by
  have hb := hbad
  simp [h7] at hb
  have he : parseWavFile subdir file = Except.error
      ("invalid literal for int() with base 10: " ++
        String.mk ((splitOnChar '.' ((splitOnChar '-' file).getD 6 [])).getD 0 [])) := by
    simp [parseWavFile, hwav, h7, hb]
  have hscan : scanFiles (pre ++ (subdir, file) :: post) = Except.error
      ("invalid literal for int() with base 10: " ++
        String.mk ((splitOnChar '.' ((splitOnChar '-' file).getD 6 [])).getD 0 [])) := by
    apply scanFiles_error_prop pre _ hpre
    simp only [scanFiles]
    rw [he]
  exact ⟨⟨_, he⟩, ⟨_, hscan⟩⟩

/-- Witness for C10 at the implicit claim's example filename, as the only
file the walk yields. -/
theorem c10_unparsable_actor_aborts_scan_witness :
    (∃ e, parseWavFile "input".toList "01-01-03-01-01-01-abc.wav".toList =
      Except.error e) ∧
    (∃ e, scanFiles ([] ++ ("input".toList, "01-01-03-01-01-01-abc.wav".toList) :: []) =
      Except.error e) :=
  c10_unparsable_actor_aborts_scan "input".toList "01-01-03-01-01-01-abc.wav".toList
    [] [] (by decide) (by decide) (by decide) (by simp)

end EmotionRec
